import Mathlib

/-!
Verification development for the entity-hoarder storage + search/ranking core
(src/entity-hoarder/entity-hoarder.py).

The Python program is a single-file SQLite-backed catalog.  This file gives a
shallow embedding of its core:

* the record store (table `entities`, CRUD functions `add_entity`,
  `update_entity`, `delete_entity`, `fetch_entity`),
* the capability detector (`db_supports_fts`, and the `fts` feature computed
  by `init_db`),
* the search dispatcher (`search_entities`, including the SQLite `LIKE`
  fallback with full wildcard semantics),
* the ranking engine fallback (`rank_candidates` over a model of
  `difflib.SequenceMatcher.ratio`),
* the metadata (de)serialization used on the read paths (`view_entity` and
  the prefill step of `prompt_fields`), modelling `json.dumps` / `json.loads`
  restricted to the flat string-to-string objects the program itself writes.

SQLite specifics modelled: `TEXT` columns compare with BINARY collation
(lexicographic by code point, which is what Lean's `String` order does for
the ASCII data in scope), `LIKE` is case-insensitive for ASCII letters only
(matching `Char.toLower`), `NOT NULL` / `UNIQUE` violations raise
`IntegrityError` (a constraint violation), and `AUTOINCREMENT` never reuses
row ids.  Wall-clock time (`now_iso()`) is passed in as an explicit `now`
argument.
-/

/-- ASCII lower-casing of a character, matching both Python `str.lower` and
SQLite `LIKE` case folding on the ASCII data in scope. -/
def lc (c : Char) : Char := c.toLower

/-- Boolean substring test on char lists: `p` occurs contiguously in `s`. -/
def infB (p s : List Char) : Bool := s.tails.any fun t => p.isPrefixOf t

/-- Collapse every run of consecutive dashes to a single dash.  This is the
fixpoint of the source's `while '--' in s: s = s.replace('--', '-')` loop. -/
def collapseDashes : List Char → List Char
  | [] => []
  | [c] => [c]
  | c :: d :: rest =>
    if c = '-' ∧ d = '-' then collapseDashes (d :: rest)
    else c :: collapseDashes (d :: rest)

/-- `slugify` from the source: lower-case, replace each non-alphanumeric
character by a dash, collapse dash runs, strip leading/trailing dashes,
truncate to 200 characters. -/
def slugify (name : String) : String :=
  let s1 := name.data.map lc
  let s2 := s1.map fun c => if c.isAlphanum then c else '-'
  let s3 := collapseDashes s2
  let s4 := (s3.dropWhile fun c => c = '-').reverse
  let s5 := (s4.dropWhile fun c => c = '-').reverse
  String.mk (s5.take 200)

/-! ### Metadata documents: model of `json.dumps` / `json.loads`

The program serializes the `metadata` dict with `json.dumps` and reads it
back with `json.loads`.  We model the documents the program itself writes:
flat objects with string keys and string values (the guided prompt only ever
produces these).  Keys are kept in insertion order, as a Python dict does.
The serializer escapes `"` and `\` as JSON requires; other JSON escapes
(control characters, non-ASCII `\uXXXX`) do not occur in the modelled data.
-/

/-- A flat metadata document: ordered key/value pairs of strings. -/
abbrev MetaMap := List (String × String)

/-- JSON string-body escaping for the characters that occur in scope. -/
def escJson (s : String) : String :=
  String.mk (s.data.foldr (fun c acc =>
    if c = '"' ∨ c = '\\' then '\\' :: c :: acc else c :: acc) [])

/-- One serialized pair, `"key": "value"`. -/
def metaPairText (p : String × String) : String :=
  "\"" ++ escJson p.1 ++ "\": \"" ++ escJson p.2 ++ "\""

/-- The comma-separated pair list, as `json.dumps` emits it. -/
def metaPairsText : MetaMap → String
  | [] => ""
  | [p] => metaPairText p
  | p :: q :: rest => metaPairText p ++ ", " ++ metaPairsText (q :: rest)

/-- `json.dumps` on a flat string-to-string dict. -/
def metaDumps (m : MetaMap) : String :=
  "\x7b" ++ metaPairsText m ++ "\x7d"

/-- JSON insignificant whitespace. -/
def jws (c : Char) : Bool := c = ' ' ∨ c = '\t' ∨ c = '\n' ∨ c = '\r'

/-- Skip insignificant whitespace. -/
def skipWs (l : List Char) : List Char := l.dropWhile jws

/-- Parse a JSON string body (the opening quote already consumed), returning
the decoded string and the remaining input, or `none` on malformed input. -/
def psl : List Char → Option (String × List Char)
  | [] => none
  | c :: rest =>
    if c = '"' then some ("", rest)
    else if c = '\\' then
      match rest with
      | [] => none
      | d :: rest' =>
        if d = '"' ∨ d = '\\' then
          (psl rest').map fun pr => (String.mk (d :: pr.1.data), pr.2)
        else none
    else (psl rest).map fun pr => (String.mk (c :: pr.1.data), pr.2)

/-- Demand one specific character at the head of the input. -/
def expectChar (c : Char) : List Char → Option (List Char)
  | [] => none
  | x :: rest => if x = c then some rest else none

/-- Parse a non-empty `"k": "v"` pair sequence terminated by `}`.  The input
starts at the first pair's opening quote.  `fuel` bounds the number of pairs;
each parsed pair consumes at least six characters of input, so the
`input length + 1` fuel supplied by `metaParse` can never run out before the
input does. -/
def parsePairsF : Nat → List Char → Option (MetaMap × List Char)
  | 0, _ => none
  | fuel + 1, l =>
    match expectChar '"' l with
    | none => none
    | some rest =>
      match psl rest with
      | none => none
      | some (k, r1) =>
        match expectChar ':' (skipWs r1) with
        | none => none
        | some r2 =>
          match expectChar '"' (skipWs r2) with
          | none => none
          | some r3 =>
            match psl r3 with
            | none => none
            | some (v, r4) =>
              match skipWs r4 with
              | [] => none
              | c :: r5 =>
                if c = ',' then
                  (parsePairsF fuel (skipWs r5)).map fun pr => ((k, v) :: pr.1, pr.2)
                else if c = '\x7d' then some ([(k, v)], r5)
                else none

/-- `json.loads` on the modelled documents: a flat object of strings, with
nothing but whitespace after it.  Any other input fails to parse. -/
def metaParse (s : String) : Option MetaMap :=
  match expectChar '\x7b' (skipWs s.data) with
  | none => none
  | some rest =>
    if (skipWs rest).head? = some '\x7d' then
      if (skipWs (skipWs rest).tail).isEmpty then some [] else none
    else
      match parsePairsF ((skipWs rest).length + 1) (skipWs rest) with
      | some (m, rest3) => if (skipWs rest3).isEmpty then some m else none
      | none => none

/-! ### The record store -/

/-- A row of the `entities` table.  `type`, `name`, `slug`, `metadata`,
`created_at` and `updated_at` are always written as strings by the program
(`type`/`name` are `NOT NULL`; `slug` and `metadata` are always bound to a
string by `add_entity`); `description` and `tags` may be SQL `NULL`. -/
structure Entity where
  id : Nat
  type : String
  name : String
  slug : String
  description : Option String
  tags : Option String
  metadata : String
  created_at : String
  updated_at : String
deriving DecidableEq

/-- The argument dict of `add_entity`/`update_entity`: a key is either
absent/`None` (modelled `none`) or bound to a value.  `metadata` is bound to
a structured document, serialized on write. -/
structure FieldSet where
  type : Option String
  name : Option String
  slug : Option String
  description : Option String
  tags : Option String
  metadata : Option MetaMap
deriving DecidableEq

/-- Storage-layer errors, per the spec's taxonomy.  SQLite raises
`IntegrityError` for both `NOT NULL` and `UNIQUE` violations; both are
`ConstraintViolation` in the spec's terms. -/
inductive DbErr where
  | constraintViolation
  | notFound
deriving DecidableEq

/-- The `entities` table plus the `AUTOINCREMENT` counter:  `nextId` is the
next rowid SQLite will assign (it never reuses ids). -/
structure Store where
  rows : List Entity
  nextId : Nat
deriving DecidableEq

/-- Well-formedness of a reachable store: every assigned id is below the
`AUTOINCREMENT` counter. -/
def Store.WF (st : Store) : Prop := ∀ r ∈ st.rows, r.id < st.nextId

/-- The effective slug of a create call: the source computes
`fields.get('slug') or slugify(fields.get('name', ''))`, so a missing or
falsy (empty-string) slug override falls back to slugifying the name. -/
def addSlug (f : FieldSet) : String :=
  match f.slug with
  | some s => if s = "" then slugify (f.name.getD "") else s
  | none => slugify (f.name.getD "")

/-- `add_entity`: serialize the metadata (`fields.get('metadata') or {}`),
insert the row with `created_at = updated_at = now`, commit, return the new
rowid.  The insert raises a constraint violation when `type` or `name` is
missing (`NOT NULL`) or the slug collides with an existing row (`UNIQUE`);
a failed insert writes nothing. -/
def add_entity (st : Store) (now : String) (f : FieldSet) : Except DbErr (Store × Nat) :=
  match f.type, f.name with
  | some t, some n =>
    if st.rows.any fun r => r.slug = addSlug f then .error .constraintViolation
    else .ok (⟨st.rows ++
      [⟨st.nextId, t, n, addSlug f, f.description, f.tags,
        metaDumps (f.metadata.getD []), now, now⟩], st.nextId + 1⟩, st.nextId)
  | _, _ => .error .constraintViolation

/-- Apply an update's SET clause to one row: only keys that are present and
not `None` are assigned; `metadata` is re-serialized; `updated_at` is always
refreshed. -/
def applyUpdate (r : Entity) (f : FieldSet) (now : String) : Entity :=
  { r with
    type := f.type.getD r.type
    name := f.name.getD r.name
    slug := f.slug.getD r.slug
    description := match f.description with | some d => some d | none => r.description
    tags := match f.tags with | some t => some t | none => r.tags
    metadata := match f.metadata with | some m => metaDumps m | none => r.metadata
    updated_at := now }

/-- `update_entity`: `UPDATE entities SET ... WHERE id = ?`.  When no row has
the id, the statement matches zero rows and succeeds as a no-op.  When a row
is updated, SQLite re-checks the `UNIQUE(slug)` constraint against the other
rows. -/
def update_entity (st : Store) (entity_id : Nat) (f : FieldSet) (now : String) :
    Except DbErr Store :=
  match st.rows.find? fun r => r.id = entity_id with
  | none => .ok st
  | some r =>
    if st.rows.any fun o => o.id ≠ entity_id ∧ o.slug = (applyUpdate r f now).slug then
      .error .constraintViolation
    else
      .ok ⟨st.rows.map fun o => if o.id = entity_id then applyUpdate r f now else o,
        st.nextId⟩

/-- `delete_entity`: `DELETE FROM entities WHERE id = ?`; deleting a missing
id matches zero rows and succeeds. -/
def delete_entity (st : Store) (entity_id : Nat) : Store :=
  ⟨st.rows.filter fun r => r.id ≠ entity_id, st.nextId⟩

/-- `fetch_entity`: `SELECT * FROM entities WHERE id = ?`, `fetchone()`. -/
def fetch_entity (st : Store) (entity_id : Nat) : Option Entity :=
  st.rows.find? fun r => r.id = entity_id

/-! ### Ordering relations used by the SQL queries and Python's `list.sort`

SQLite's `ORDER BY` and Python's `list.sort` are both modelled with Mathlib's
stable `List.insertionSort` (Python's sort is documented stable, including
with `reverse=True`; SQLite leaves tie order unspecified, and the model picks
the stable order). -/

/-- Descending `updated_at` (TEXT, BINARY collation): `a` precedes `b`. -/
def updGe (a b : Entity) : Prop := b.updated_at ≤ a.updated_at

instance : DecidableRel updGe := fun a b =>
  inferInstanceAs (Decidable (b.updated_at ≤ a.updated_at))

instance : IsTotal Entity updGe := ⟨fun a b => le_total b.updated_at a.updated_at⟩

instance : IsTrans Entity updGe := ⟨fun _ _ _ h1 h2 => le_trans h2 h1⟩

/-- Ascending rowid order. -/
def idLe (a b : Entity) : Prop := a.id ≤ b.id

instance : DecidableRel idLe := fun a b => inferInstanceAs (Decidable (a.id ≤ b.id))

instance : IsTotal Entity idLe := ⟨fun a b => le_total a.id b.id⟩

instance : IsTrans Entity idLe := ⟨fun _ _ _ h1 h2 => le_trans h1 h2⟩

/-- Descending score on scored candidates: `a` precedes `b`. -/
def scoreGe (a b : Entity × ℚ) : Prop := b.2 ≤ a.2

instance : DecidableRel scoreGe := fun a b => inferInstanceAs (Decidable (b.2 ≤ a.2))

instance : IsTotal (Entity × ℚ) scoreGe := ⟨fun a b => le_total b.2 a.2⟩

instance : IsTrans (Entity × ℚ) scoreGe := ⟨fun _ _ _ h1 h2 => le_trans h2 h1⟩

/-- `SELECT * FROM entities ORDER BY updated_at DESC LIMIT ?`. -/
def listRecent (st : Store) (limit : Nat) : List Entity :=
  (List.insertionSort updGe st.rows).take limit

/-! ### The `LIKE` fallback and the spec's `scanTextMatch` -/

/-- SQLite `LIKE` matching on char lists: `%` matches any sequence, `_` any
single character, and other characters match case-insensitively (ASCII). -/
def likeM : List Char → List Char → Bool
  | [], s => s.isEmpty
  | p :: ps, s =>
    if p = '%' then s.tails.any fun t => likeM ps t
    else
      match s with
      | [] => false
      | c :: cs => if p = '_' then likeM ps cs else (lc p == lc c) && likeM ps cs

/-- One column against the `%q%` pattern the source builds.  A SQL `NULL`
column makes `LIKE` evaluate to `NULL`, which does not select the row. -/
def likeCol (q : String) : Option String → Bool
  | none => false
  | some s => likeM ('%' :: (q.data ++ ['%'])) s.data

/-- The `WHERE name LIKE ? OR description LIKE ? OR tags LIKE ?` predicate. -/
def likeRow (q : String) (r : Entity) : Bool :=
  likeCol q (some r.name) || likeCol q r.description || likeCol q r.tags

/-- The source's LIKE fallback query:
`... WHERE name LIKE '%q%' OR ... ORDER BY updated_at DESC LIMIT ?`. -/
def likeScan (st : Store) (q : String) (limit : Nat) : List Entity :=
  (List.insertionSort updGe (st.rows.filter (likeRow q))).take limit

/-- Case-insensitive-substring test of one column, from the spec's words. -/
def scanCol (pat : String) : Option String → Bool
  | none => false
  | some s => infB (pat.data.map lc) (s.data.map lc)

/-- Spec-side row predicate: `name`, `description` or `tags` contains the
pattern as a case-insensitive substring. -/
def scanRow (pat : String) (r : Entity) : Bool :=
  scanCol pat (some r.name) || scanCol pat r.description || scanCol pat r.tags

/-- `scanTextMatch(pattern, limit)` as the spec describes it: the entities
whose `name`, `description`, or `tags` contain `pattern` as a
case-insensitive substring, ordered most-recently-updated first, truncated
to `limit`. -/
def scanTextMatch (st : Store) (pat : String) (limit : Nat) : List Entity :=
  (List.insertionSort updGe (st.rows.filter (scanRow pat))).take limit

/-! ### The full-text engine and the search dispatcher -/

/-- The behaviour of the SQLite FTS5 extension, abstracted: whether a MATCH
query against the derived index evaluates without raising (`matchOk`), which
rows it matches (`matchesQuery`), and the engine's own relevance function
(`rel`, FTS5's rank) — which the dispatcher's SQL never consults, since the
query has no `ORDER BY`. -/
structure FtsEngine where
  matchOk : String → Bool
  matchesQuery : String → Entity → Bool
  rel : String → Entity → ℚ

/-- The FTS branch of the dispatcher:
`SELECT e.* FROM entities_fts f JOIN entities e ON f.rowid = e.id WHERE
entities_fts MATCH ? LIMIT ?`.  The triggers installed by `init_db` keep the
index exactly in sync with the table, so the index rows are the table rows;
without `ORDER BY`, FTS5 emits matches in ascending rowid order. -/
def ftsQuery (e : FtsEngine) (st : Store) (q : String) (limit : Nat) : List Entity :=
  (List.insertionSort idLe (st.rows.filter (e.matchesQuery q))).take limit

/-- Python `str.strip()`: remove leading and trailing whitespace. -/
def pyStrip (s : String) : String :=
  String.mk (((s.data.dropWhile fun c => c.isWhitespace).reverse.dropWhile
    fun c => c.isWhitespace).reverse)

/-- `search_entities`: strip the query; empty → recency listing; else, with
FTS enabled, try the MATCH query — on an exception or zero rows fall through
— else (or on fallback) the LIKE scan. -/
def search_entities (st : Store) (e : FtsEngine) (query : String) (fts : Bool)
    (limit : Nat) : List Entity :=
  let q := pyStrip query
  if q = "" then listRecent st limit
  else if fts && e.matchOk q then
    let rows := ftsQuery e st q limit
    if rows.isEmpty then likeScan st q limit else rows
  else likeScan st q limit

/-! ### The capability detector -/

/-- The storage engine facts the detector probes: the engine's declared
compile options, and whether creating an FTS5 virtual table actually
works. -/
structure SqliteEnv where
  compileOptions : List String
  ftsCreateWorks : Bool
deriving DecidableEq

/-- One `PRAGMA compile_options` row, upper-cased, tested for the FTS5
markers exactly as the source does. -/
def optMentionsFts (o : String) : Bool :=
  infB "ENABLE_FTS5".data (o.data.map Char.toUpper) ||
  infB "FTS5".data (o.data.map Char.toUpper)

/-- `db_supports_fts`: scan `PRAGMA compile_options` for an FTS5 marker and
return `True` on sight; only when no marker is found, fall back to creating
(and dropping) a throwaway `fts5` table, reporting whether that worked. -/
def db_supports_fts (env : SqliteEnv) : Bool :=
  if env.compileOptions.any optMentionsFts then true else env.ftsCreateWorks

/-- The `fts` feature flag `init_db` returns: the detector's verdict, downgraded
to `False` if actually creating the real `entities_fts` table and its triggers
fails. -/
def init_db_fts (env : SqliteEnv) : Bool :=
  db_supports_fts env && env.ftsCreateWorks

/-! ### The ranking engine fallback: `difflib.SequenceMatcher`

`rank_candidates` is modelled in its fallback configuration (the preferred
`rapidfuzz` library unavailable, `HAVE_RAPIDFUZZ = False`), which is the
configuration the claims address.  `difflib.SequenceMatcher(None, a, b)` is
modelled without the `autojunk` heuristic, which only activates when the
second string has 200 or more characters. -/

/-- Length of the longest common chunk ending exactly at positions `i` of `a`
and `j` of `b`, chains clipped at the window lower bounds `alo`/`blo`.  This
is the `j2len` dynamic program inside `find_longest_match`. -/
def matchLen (a b : List Char) (alo blo : Nat) : Nat → Nat → Nat
  | 0, j => if a[0]?.isSome ∧ a[0]? = b[j]? then 1 else 0
  | i + 1, 0 => if a[i + 1]?.isSome ∧ a[i + 1]? = b[0]? then 1 else 0
  | i + 1, j + 1 =>
    if a[i + 1]?.isSome ∧ a[i + 1]? = b[j + 1]? then
      (if alo ≤ i ∧ blo ≤ j then matchLen a b alo blo i j else 0) + 1
    else 0

/-- The `(i, j)` pairs of the window, in the lexicographic order the source's
nested loops visit them. -/
def flmGrid (alo ahi blo bhi : Nat) : List (Nat × Nat) :=
  ((List.range' alo (ahi - alo)).map fun i =>
    (List.range' blo (bhi - blo)).map fun j => (i, j)).flatten

/-- One visit of `find_longest_match`'s scan: keep the running best, replace
it only on a strictly larger match ending at `(i, j)`. -/
def flmStep (a b : List Char) (alo blo : Nat) (best : Nat × Nat × Nat)
    (ij : Nat × Nat) : Nat × Nat × Nat :=
  if best.2.2 < matchLen a b alo blo ij.1 ij.2 then
    (ij.1 + 1 - matchLen a b alo blo ij.1 ij.2,
     ij.2 + 1 - matchLen a b alo blo ij.1 ij.2,
     matchLen a b alo blo ij.1 ij.2)
  else best

/-- `find_longest_match(alo, ahi, blo, bhi)` (no junk): the longest matching
block in the window, earliest in `a` then earliest in `b` among maxima,
returned as (start in `a`, start in `b`, size), defaulting to
`(alo, blo, 0)`. -/
def flm (a b : List Char) (alo ahi blo bhi : Nat) : Nat × Nat × Nat :=
  (flmGrid alo ahi blo bhi).foldl (flmStep a b alo blo) (alo, blo, 0)

/-- Total size of all matching blocks (the `sum(size for ...)`) underlying
`ratio()`: recursively split the window at the longest match, as
`get_matching_blocks` does.  Each recursion level strictly shrinks the `a`
window, so `a.length + 1` fuel (supplied by `matchSum`) never runs out. -/
def matchSumF (a b : List Char) : Nat → Nat → Nat → Nat → Nat → Nat
  | 0, _, _, _, _ => 0
  | fuel + 1, alo, ahi, blo, bhi =>
    if (flm a b alo ahi blo bhi).2.2 = 0 then 0
    else
      matchSumF a b fuel alo (flm a b alo ahi blo bhi).1 blo
          (flm a b alo ahi blo bhi).2.1 +
        (flm a b alo ahi blo bhi).2.2 +
        matchSumF a b fuel
          ((flm a b alo ahi blo bhi).1 + (flm a b alo ahi blo bhi).2.2) ahi
          ((flm a b alo ahi blo bhi).2.1 + (flm a b alo ahi blo bhi).2.2) bhi

/-- Total matched characters between `a` and `b`. -/
def matchSum (a b : List Char) : Nat :=
  matchSumF a b (a.length + 1) 0 a.length 0 b.length

/-- `SequenceMatcher(None, a, b).ratio()`: `2*M / T`, and `1.0` when both
strings are empty (`_calculate_ratio`). -/
def seqSim (a b : String) : ℚ :=
  if a.length + b.length = 0 then 1
  else (2 * (matchSum a.data b.data : ℚ)) / ((a.length : ℚ) + (b.length : ℚ))

/-- Python `str.lower` on the ASCII data in scope. -/
def strLower (s : String) : String := String.mk (s.data.map lc)

/-- The fallback score of one candidate:
`max(ratio(q, name) * 1.2, ratio(q, desc)) * 100`, all strings lower-cased,
with `NULL`/missing text defaulting to the empty string. -/
def fallbackScore (q : String) (r : Entity) : ℚ :=
  let ns := seqSim (strLower q) (strLower r.name)
  let ds := seqSim (strLower q) (strLower (r.description.getD ""))
  max (ns * (6 / 5)) ds * 100

/-- The scored candidate list, in the candidates' original order. -/
def scoredRows (q : String) (rows : List Entity) : List (Entity × ℚ) :=
  rows.map fun r => (r, fallbackScore q r)

/-- `rank_candidates` in the fallback configuration: score every candidate,
stable-sort by descending score (`list.sort(key=..., reverse=True)` is
stable), truncate to `top_n`. -/
def rank_candidates (q : String) (rows : List Entity) (top_n : Nat) :
    List (Entity × ℚ) :=
  (List.insertionSort scoreGe (scoredRows q rows)).take top_n

/-! ### The metadata read paths -/

/-- The program reads the column as `r['metadata'] or '{}'`: an SQL `NULL` or
empty string falls back to the empty document (the model's column is always a
string, so only the empty string case applies). -/
def metaRawOr (s : String) : String := if s = "" then "\x7b\x7d" else s

/-- What `view_entity` shows for the metadata: the parsed document, or —
when `json.loads` raises — an explicit `(invalid JSON)` notice together with
the raw text. -/
inductive MetaView where
  | parsed (m : MetaMap)
  | invalidReported (raw : String)
deriving DecidableEq

/-- The metadata portion of `view_entity`'s output. -/
def view_meta (raw : String) : MetaView :=
  match metaParse (metaRawOr raw) with
  | some m => .parsed m
  | none => .invalidReported raw

/-- Everything `view_entity` prints for a found row. -/
structure ViewOutput where
  id : Nat
  type : String
  name : String
  slug : String
  description : String
  tags : Option String
  metaShown : MetaView
  created_at : String
  updated_at : String
deriving DecidableEq

/-- The rendering of one row: every column is shown; the description is
shown stripped (`textwrap.indent((r['description'] or '').strip(), ...)`),
the metadata through `view_meta`. -/
def viewRow (r : Entity) : ViewOutput :=
  ⟨r.id, r.type, r.name, r.slug, (r.description.getD "").trim, r.tags,
    view_meta r.metadata, r.created_at, r.updated_at⟩

/-- `view_entity`: fetch the row and display it (`none` models the
`Not found` message). -/
def view_entity (st : Store) (entity_id : Nat) : Option ViewOutput :=
  (fetch_entity st entity_id).map viewRow

/-- The metadata prefill step of `prompt_fields` when editing an existing
row: `json.loads(existing['metadata'] or '{}')` with a bare
`except: existing_meta = {}` — a parse failure is silently replaced by the
empty mapping. -/
def prompt_fields_existing_meta (raw : String) : MetaMap :=
  (metaParse (metaRawOr raw)).getD []

/-! ### Concrete sample data used by witnesses and counterexamples -/

/-- A row with id 1. -/
def rowA : Entity := ⟨1, "t", "n1", "s1", none, none, "\x7b\x7d", "a", "a"⟩

/-- A row with id 2. -/
def rowB : Entity := ⟨2, "t", "n2", "s2", none, none, "\x7b\x7d", "a", "a"⟩

/-- A two-row store. -/
def stAB : Store := ⟨[rowA, rowB], 3⟩

/-- An FTS engine whose relevance function is the rowid itself: every row
matches every query, later rows are more relevant. -/
def idRelEngine : FtsEngine := ⟨fun _ => true, fun _ _ => true, fun _ r => (r.id : ℚ)⟩

/-- An engine for runs where the FTS branch is disabled anyway. -/
def nullEngine : FtsEngine := ⟨fun _ => false, fun _ _ => false, fun _ _ => 0⟩

/-- A row whose name is the two-character string `ab`. -/
def rowAB : Entity := ⟨1, "t", "ab", "ab", none, none, "\x7b\x7d", "a", "a"⟩

/-- A one-row store holding `rowAB`. -/
def stLike : Store := ⟨[rowAB], 2⟩

/-- A row with no searchable text: empty name, NULL description. -/
def rowEmpty : Entity := ⟨1, "t", "", "s", none, none, "\x7b\x7d", "a", "a"⟩

/-! ## Helper lemmas

### Serialization round-trip -/

theorem skipWs_cons_of_not {c : Char} (l : List Char) (h : jws c = false) :
    skipWs (c :: l) = c :: l := by
  simp [skipWs, List.dropWhile_cons, h]

theorem psl_cons_quote (rest : List Char) : psl ('"' :: rest) = some ("", rest) := by
  rw [psl.eq_def]; simp

theorem psl_cons_esc (c : Char) (rest : List Char) (h : c = '"' ∨ c = '\\') :
    psl ('\\' :: c :: rest) =
      (psl rest).map fun pr => (String.mk (c :: pr.1.data), pr.2) := by
  rw [psl.eq_def]; simp [h]

theorem psl_cons_plain (c : Char) (rest : List Char) (h1 : ¬ c = '"') (h2 : ¬ c = '\\') :
    psl (c :: rest) = (psl rest).map fun pr => (String.mk (c :: pr.1.data), pr.2) := by
  rw [psl.eq_def]; simp [h1, h2]

theorem escJson_data (l : List Char) :
    (escJson (String.mk l)).data =
      l.foldr (fun c acc => if c = '"' ∨ c = '\\' then '\\' :: c :: acc else c :: acc) [] := rfl

theorem psl_esc (s : String) (rest : List Char) :
    psl ((escJson s).data ++ '"' :: rest) = some (s, rest) := by
  obtain ⟨cs⟩ := s
  induction cs with
  | nil => simpa [escJson_data] using psl_cons_quote rest
  | cons c cs ih =>
    by_cases hc : c = '"' ∨ c = '\\'
    · rw [escJson_data, List.foldr_cons, if_pos hc, ← escJson_data,
        List.cons_append, List.cons_append, psl_cons_esc c _ hc, ih]
      rfl
    · push_neg at hc
      rw [escJson_data, List.foldr_cons, if_neg (not_or.mpr ⟨hc.1, hc.2⟩), ← escJson_data,
        List.cons_append, psl_cons_plain c _ hc.1 hc.2, ih]
      rfl

theorem metaPairsText_head (p : String × String) (m : MetaMap) :
    ∃ l, (metaPairsText (p :: m)).data = '"' :: l := by
  cases m with
  | nil =>
    exact ⟨(escJson p.1).data ++ '"' :: ':' :: ' ' :: '"' :: ((escJson p.2).data ++ ['"']),
      by simp [metaPairsText, metaPairText, String.data_append]⟩
  | cons q m =>
    exact ⟨(escJson p.1).data ++ '"' :: ':' :: ' ' :: '"' ::
        ((escJson p.2).data ++ '"' :: ',' :: ' ' :: (metaPairsText (q :: m)).data),
      by simp [metaPairsText, metaPairText, String.data_append]⟩


theorem metaPairsText_length (p : String × String) (m : MetaMap) :
    m.length ≤ (metaPairsText (p :: m)).data.length := by
  induction m generalizing p with
  | nil => simp
  | cons q m ih =>
    have h := ih q
    have h2 : (metaPairsText (p :: q :: m)).data.length =
        (metaPairText p).data.length + 2 + (metaPairsText (q :: m)).data.length := by
      simp [metaPairsText, String.data_append]
      omega
    simp only [List.length_cons]
    omega

theorem parsePairsF_dumps (m : MetaMap) (k v : String) :
    ∀ (fuel : Nat) (rest : List Char), m.length + 1 ≤ fuel →
      parsePairsF fuel ((metaPairsText ((k, v) :: m)).data ++ '\x7d' :: rest) =
        some ((k, v) :: m, rest) := by
  induction m generalizing k v with
  | nil =>
    intro fuel rest hf
    match fuel, hf with
    | fuel + 1, _ =>
      have h1 : (metaPairsText [(k, v)]).data ++ '\x7d' :: rest =
          '"' :: ((escJson k).data ++ '"' ::
            (':' :: ' ' :: '"' :: ((escJson v).data ++ '"' :: '\x7d' :: rest))) := by
        simp [metaPairsText, metaPairText, String.data_append]
      rw [h1, parsePairsF.eq_def]
      simp [expectChar, psl_esc, skipWs, jws]
  | cons p m ih =>
    intro fuel rest hf
    match fuel, hf with
    | fuel + 1, hf =>
      obtain ⟨tl, htl⟩ := metaPairsText_head p m
      have h1 : (metaPairsText ((k, v) :: p :: m)).data ++ '\x7d' :: rest =
          '"' :: ((escJson k).data ++ '"' ::
            (':' :: ' ' :: '"' :: ((escJson v).data ++ '"' :: ',' :: ' ' ::
              ((metaPairsText (p :: m)).data ++ '\x7d' :: rest)))) := by
        simp [metaPairsText, metaPairText, String.data_append]
      have hstep : m.length + 1 ≤ fuel := by
        simp only [List.length_cons] at hf
        omega
      obtain ⟨k2, v2⟩ := p
      have hrec := ih k2 v2 fuel rest hstep
      have hsk2 : List.dropWhile jws ((metaPairsText ((k2, v2) :: m)).data ++ '\x7d' :: rest) =
          (metaPairsText ((k2, v2) :: m)).data ++ '\x7d' :: rest := by
        rw [htl]
        exact skipWs_cons_of_not _ (by decide)
      rw [h1, parsePairsF.eq_def]
      simp [expectChar, psl_esc, skipWs, jws]
      rw [hsk2]
      exact hrec

theorem metaParse_metaDumps (m : MetaMap) : metaParse (metaDumps m) = some m := by
  cases m with
  | nil => decide
  | cons p m =>
    obtain ⟨k, v⟩ := p
    obtain ⟨tl, htl⟩ := metaPairsText_head (k, v) m
    have hdata : (metaDumps ((k, v) :: m)).data =
        '\x7b' :: ((metaPairsText ((k, v) :: m)).data ++ ['\x7d']) := by
      simp [metaDumps, String.data_append]
    have h1 : skipWs (metaDumps ((k, v) :: m)).data =
        '\x7b' :: ((metaPairsText ((k, v) :: m)).data ++ ['\x7d']) := by
      rw [hdata]
      exact skipWs_cons_of_not _ (by decide)
    have hsk : skipWs ((metaPairsText ((k, v) :: m)).data ++ ['\x7d']) =
        (metaPairsText ((k, v) :: m)).data ++ ['\x7d'] := by
      rw [htl]
      exact skipWs_cons_of_not _ (by decide)
    have hlen := metaPairsText_length (k, v) m
    have hpp := parsePairsF_dumps m k v
        (((metaPairsText ((k, v) :: m)).data ++ ['\x7d']).length + 1) []
        (by simp only [List.length_append, List.length_cons, List.length_nil]; omega)
    have hh : ((metaPairsText ((k, v) :: m)).data ++ ['\x7d']).head? = some '"' := by
      rw [htl]; rfl
    rw [metaParse, h1]
    simp only [expectChar, reduceIte]
    rw [hsk, hh, if_neg (by decide), hpp]
    simp [skipWs]

/-! ### `LIKE` patterns of the shape `%q%` against substring containment -/

theorem likeM_percent (ps s : List Char) :
    likeM ('%' :: ps) s = s.tails.any fun t => likeM ps t := by
  rw [likeM.eq_def]; simp

theorem likeM_lit_nil (p : Char) (ps : List Char) (hp1 : ¬ p = '%') :
    likeM (p :: ps) [] = false := by
  rw [likeM.eq_def]; simp [hp1]

theorem likeM_lit_cons (p : Char) (ps : List Char) (c : Char) (cs : List Char)
    (hp1 : ¬ p = '%') (hp2 : ¬ p = '_') :
    likeM (p :: ps) (c :: cs) = ((lc p == lc c) && likeM ps cs) := by
  rw [likeM.eq_def]; simp [hp1, hp2]

theorem likeM_lit_prefix (q : List Char) (hq : ∀ c ∈ q, c ≠ '%' ∧ c ≠ '_') :
    ∀ s, likeM (q ++ ['%']) s = (q.map lc).isPrefixOf (s.map lc) := by
  induction q with
  | nil =>
    intro s
    rw [List.nil_append, likeM_percent]
    have hl : (s.tails.any fun t => likeM [] t) = true := by
      rw [List.any_eq_true]
      exact ⟨[], List.mem_tails _ _ |>.mpr List.nil_suffix, by rw [likeM.eq_def]; rfl⟩
    rw [hl]
    simp [List.isPrefixOf]
  | cons p q ih =>
    intro s
    have hp := hq p (by simp)
    cases s with
    | nil =>
      rw [List.cons_append, likeM_lit_nil p _ hp.1]
      simp [List.isPrefixOf]
    | cons c cs =>
      rw [List.cons_append, likeM_lit_cons p _ c cs hp.1 hp.2,
        ih (fun d hd => hq d (by simp [hd])) cs]
      simp [List.isPrefixOf]

theorem likeM_contains (q s : List Char) (hq : ∀ c ∈ q, c ≠ '%' ∧ c ≠ '_') :
    likeM ('%' :: (q ++ ['%'])) s = infB (q.map lc) (s.map lc) := by
  rw [likeM_percent]
  unfold infB
  rw [List.map_tails, List.any_map]
  congr 1
  funext t
  exact likeM_lit_prefix q hq t

theorem likeCol_eq_scanCol (q : String) (hq : ∀ c ∈ q.data, c ≠ '%' ∧ c ≠ '_')
    (o : Option String) : likeCol q o = scanCol q o := by
  cases o with
  | none => rfl
  | some s => exact likeM_contains q.data s.data hq

theorem likeScan_eq_scanTextMatch (st : Store) (q : String) (lim : Nat)
    (hq : ∀ c ∈ q.data, c ≠ '%' ∧ c ≠ '_') :
    likeScan st q lim = scanTextMatch st q lim := by
  unfold likeScan scanTextMatch
  rw [List.filter_congr (fun r _ => ?_)]
  unfold likeRow scanRow
  rw [likeCol_eq_scanCol q hq, likeCol_eq_scanCol q hq, likeCol_eq_scanCol q hq]


/-! ### Bounds for the `SequenceMatcher` model -/

theorem matchLen_le (a b : List Char) (alo blo : Nat) :
    ∀ i j, alo ≤ i → blo ≤ j →
      matchLen a b alo blo i j ≤ i + 1 - alo ∧ matchLen a b alo blo i j ≤ j + 1 - blo := by
  intro i
  induction i with
  | zero =>
    intro j hi hj
    cases j <;> · rw [matchLen]; split <;> omega
  | succ i ih =>
    intro j hi hj
    cases j with
    | zero => rw [matchLen]; split <;> omega
    | succ j =>
      rw [matchLen]
      split
      · by_cases hg : alo ≤ i ∧ blo ≤ j
        · have hin := ih j hg.1 hg.2
          rw [if_pos hg]
          omega
        · rw [if_neg hg]
          omega
      · omega

theorem mem_flmGrid {alo ahi blo bhi : Nat} {ij : Nat × Nat}
    (h : ij ∈ flmGrid alo ahi blo bhi) :
    alo ≤ ij.1 ∧ ij.1 < ahi ∧ blo ≤ ij.2 ∧ ij.2 < bhi := by
  unfold flmGrid at h
  rw [List.mem_flatten] at h
  obtain ⟨l, hl, hij⟩ := h
  rw [List.mem_map] at hl
  obtain ⟨i, hi, rfl⟩ := hl
  rw [List.mem_map] at hij
  obtain ⟨j, hj, rfl⟩ := hij
  rw [List.mem_range'] at hi hj
  obtain ⟨ti, hti, rfl⟩ := hi
  obtain ⟨tj, htj, rfl⟩ := hj
  simp only
  omega

theorem flm_bounds (a b : List Char) (alo ahi blo bhi : Nat)
    (h : (flm a b alo ahi blo bhi).2.2 ≠ 0) :
    alo ≤ (flm a b alo ahi blo bhi).1 ∧
      (flm a b alo ahi blo bhi).1 + (flm a b alo ahi blo bhi).2.2 ≤ ahi ∧
      blo ≤ (flm a b alo ahi blo bhi).2.1 ∧
      (flm a b alo ahi blo bhi).2.1 + (flm a b alo ahi blo bhi).2.2 ≤ bhi := by
  suffices hmain : ∀ (l : List (Nat × Nat)),
      (∀ ij ∈ l, alo ≤ ij.1 ∧ ij.1 < ahi ∧ blo ≤ ij.2 ∧ ij.2 < bhi) →
      ∀ init : Nat × Nat × Nat,
        (init.2.2 ≠ 0 → alo ≤ init.1 ∧ init.1 + init.2.2 ≤ ahi ∧
          blo ≤ init.2.1 ∧ init.2.1 + init.2.2 ≤ bhi) →
        ((l.foldl (flmStep a b alo blo) init).2.2 ≠ 0 →
          alo ≤ (l.foldl (flmStep a b alo blo) init).1 ∧
          (l.foldl (flmStep a b alo blo) init).1 +
            (l.foldl (flmStep a b alo blo) init).2.2 ≤ ahi ∧
          blo ≤ (l.foldl (flmStep a b alo blo) init).2.1 ∧
          (l.foldl (flmStep a b alo blo) init).2.1 +
            (l.foldl (flmStep a b alo blo) init).2.2 ≤ bhi) by
    exact hmain (flmGrid alo ahi blo bhi) (fun ij hij => mem_flmGrid hij)
      (alo, blo, 0) (fun hc => absurd rfl hc) h
  intro l
  induction l with
  | nil => intro _ init hinit; exact hinit
  | cons ij l ih =>
    intro hmem init hinit
    rw [List.foldl_cons]
    apply ih fun x hx => hmem x (by simp [hx])
    obtain ⟨h1, h2, h3, h4⟩ := hmem ij (by simp)
    intro hne
    unfold flmStep at hne ⊢
    by_cases hlt : init.2.2 < matchLen a b alo blo ij.1 ij.2
    · have hml := matchLen_le a b alo blo ij.1 ij.2 h1 h3
      rw [if_pos hlt] at hne ⊢
      simp only at hne ⊢
      refine ⟨by omega, by omega, by omega, by omega⟩
    · rw [if_neg hlt] at hne ⊢
      exact hinit hne

theorem matchSumF_le (a b : List Char) :
    ∀ fuel alo ahi blo bhi,
      matchSumF a b fuel alo ahi blo bhi ≤ min (ahi - alo) (bhi - blo) := by
  intro fuel
  induction fuel with
  | zero => intro alo ahi blo bhi; rw [matchSumF]; omega
  | succ fuel ih =>
    intro alo ahi blo bhi
    rw [matchSumF]
    by_cases hk : (flm a b alo ahi blo bhi).2.2 = 0
    · rw [if_pos hk]; omega
    · have hb := flm_bounds a b alo ahi blo bhi hk
      have h1 := ih alo (flm a b alo ahi blo bhi).1 blo (flm a b alo ahi blo bhi).2.1
      have h2 := ih ((flm a b alo ahi blo bhi).1 + (flm a b alo ahi blo bhi).2.2) ahi
        ((flm a b alo ahi blo bhi).2.1 + (flm a b alo ahi blo bhi).2.2) bhi
      rw [if_neg hk]
      omega

theorem matchSum_le (a b : List Char) : matchSum a b ≤ min a.length b.length := by
  have h := matchSumF_le a b (a.length + 1) 0 a.length 0 b.length
  simpa [matchSum] using h

theorem flatten_map_nil {α β : Type} (l : List α) :
    (l.map fun _ => ([] : List β)).flatten = [] := by
  induction l <;> simp [*]

theorem matchSum_nil_right (a : List Char) : matchSum a [] = 0 := by
  have hflm : flm a [] 0 a.length 0 0 = (0, 0, 0) := by
    unfold flm flmGrid
    rw [show (0 : Nat) - 0 = 0 from rfl, List.range'_zero]
    simp [flatten_map_nil]
  unfold matchSum
  rw [matchSumF]
  simp [hflm]

theorem seqSim_nonneg (a b : String) : 0 ≤ seqSim a b := by
  unfold seqSim
  split
  · norm_num
  · apply div_nonneg <;> positivity

theorem seqSim_le_one (a b : String) : seqSim a b ≤ 1 := by
  unfold seqSim
  split
  · norm_num
  · rename_i h
    have hpos : (0 : ℚ) < (a.length : ℚ) + (b.length : ℚ) := by
      have h0 : 0 < a.length + b.length := Nat.pos_of_ne_zero h
      exact_mod_cast h0
    rw [div_le_one hpos]
    have hm := matchSum_le a.data b.data
    have ha : a.length = a.data.length := rfl
    have hb : b.length = b.data.length := rfl
    have h2 : 2 * matchSum a.data b.data ≤ a.length + b.length := by omega
    exact_mod_cast h2

theorem seqSim_empty_right (a : String) (h : ¬ a = "") : seqSim a "" = 0 := by
  have hd : a.data ≠ [] := fun hh => h (String.ext hh)
  have hl : a.length ≠ 0 := by
    intro h0
    apply hd
    have h1 : a.data.length = 0 := h0
    exact List.length_eq_zero.mp h1
  unfold seqSim
  rw [if_neg (by simpa using hl)]
  have hni : ("" : String).data = [] := rfl
  rw [hni, matchSum_nil_right]
  norm_num

theorem seqSim_empty_empty : seqSim "" "" = 1 := by
  unfold seqSim
  norm_num

/-! ### Stability of the modelled sorts -/

theorem orderedInsert_filter_score_eq (c : ℚ) (x : Entity × ℚ) (l : List (Entity × ℚ))
    (hx : x.2 = c) :
    (List.orderedInsert scoreGe x l).filter (fun y => decide (y.2 = c)) =
      x :: l.filter (fun y => decide (y.2 = c)) := by
  induction l with
  | nil => simp [hx]
  | cons y l ih =>
    rw [List.orderedInsert]
    by_cases hyx : scoreGe x y
    · rw [if_pos hyx, List.filter_cons, if_pos (by simp [hx])]
    · rw [if_neg hyx]
      have hyc : ¬ y.2 = c := by
        unfold scoreGe at hyx
        intro hc
        exact hyx (by rw [hc, ← hx])
      rw [List.filter_cons, if_neg (by simpa using hyc), ih,
        List.filter_cons, if_neg (by simpa using hyc)]

theorem orderedInsert_filter_score_ne (c : ℚ) (x : Entity × ℚ) (l : List (Entity × ℚ))
    (hx : ¬ x.2 = c) :
    (List.orderedInsert scoreGe x l).filter (fun y => decide (y.2 = c)) =
      l.filter (fun y => decide (y.2 = c)) := by
  induction l with
  | nil => simp [hx]
  | cons y l ih =>
    rw [List.orderedInsert]
    by_cases hyx : scoreGe x y
    · rw [if_pos hyx, List.filter_cons, if_neg (by simpa using hx)]
    · rw [if_neg hyx, List.filter_cons, ih, List.filter_cons]

theorem insertionSort_filter_score (c : ℚ) (l : List (Entity × ℚ)) :
    (List.insertionSort scoreGe l).filter (fun y => decide (y.2 = c)) =
      l.filter (fun y => decide (y.2 = c)) := by
  induction l with
  | nil => rfl
  | cons x l ih =>
    rw [List.insertionSort]
    by_cases hx : x.2 = c
    · rw [orderedInsert_filter_score_eq c x _ hx, ih, List.filter_cons,
        if_pos (by simpa using hx)]
    · rw [orderedInsert_filter_score_ne c x _ hx, ih, List.filter_cons,
        if_neg (by simpa using hx)]

/-! ### Small store helpers -/

theorem find?_append_left_none {α : Type} {p : α → Bool} {l₁ l₂ : List α}
    (h : l₁.find? p = none) : (l₁ ++ l₂).find? p = l₂.find? p := by
  rw [List.find?_append, h, Option.none_or]

/-! ## The claims -/

/-- C1, counterexample: on the empty store, `update_entity 1` returns
successfully (the `UPDATE` matches zero rows) and `delete_entity 1` returns
the store unchanged — neither fails with `NotFound`, contradicting the claim
that both operations fail with `NotFound` for a missing id. -/
theorem update_missing_id_no_notfound_cex :
    update_entity ⟨[], 0⟩ 1 ⟨some "x", none, none, none, none, none⟩ "t0" = .ok ⟨[], 0⟩ ∧
      delete_entity ⟨[], 0⟩ 1 = ⟨[], 0⟩ :=
  ⟨rfl, rfl⟩

/-- C1, amended: for every id absent from the store, `update(id, fields)`
and `delete(id)` silently succeed as no-ops — the store is returned
unchanged and no `NotFound` (nor any other error) is raised. -/
theorem update_delete_missing_id_noop (st : Store) (eid : Nat) (f : FieldSet)
    (now : String) (h : fetch_entity st eid = none) :
    update_entity st eid f now = .ok st ∧ delete_entity st eid = st := by
  unfold fetch_entity at h
  constructor
  · unfold update_entity
    rw [h]
  · unfold delete_entity
    rw [List.find?_eq_none] at h
    have hf : st.rows.filter (fun r => decide (r.id ≠ eid)) = st.rows := by
      rw [List.filter_eq_self]
      intro r hr
      simpa using h r hr
    rw [hf]

/-- Witness for the C1 amended theorem at a concrete store and id. -/
theorem update_delete_missing_id_noop_w :
    update_entity ⟨[], 5⟩ 3 ⟨some "x", none, none, none, none, none⟩ "t0" = .ok ⟨[], 5⟩ ∧
      delete_entity ⟨[], 5⟩ 3 = ⟨[], 5⟩ :=
  update_delete_missing_id_noop ⟨[], 5⟩ 3 ⟨some "x", none, none, none, none, none⟩ "t0"
    (by decide)

/-- C2, counterexample: `create` with `type` and `name` present but EMPTY
accepts the field set and writes the row — the empty string satisfies the
schema's `NOT NULL`, and `add_entity` performs no non-emptiness validation.
This contradicts the claim that a create with an empty required field aborts
with `ConstraintViolation` and writes nothing. -/
theorem create_empty_required_accepted_cex :
    add_entity ⟨[], 0⟩ "t0" ⟨some "", some "", none, none, none, none⟩ =
      .ok (⟨[⟨0, "", "", "", none, none, "\x7b\x7d", "t0", "t0"⟩], 1⟩, 0) := rfl

/-- C2, amended: a create whose required field (`type` or `name`) is MISSING
(`None`) aborts with `ConstraintViolation` (the schema's `NOT NULL`) and
writes nothing — the failed call returns no store.  Empty-string required
fields, however, are accepted and written: presence is enforced by the
storage schema, non-emptiness is not validated anywhere. -/
theorem create_missing_required_aborts (st : Store) (now : String) (f : FieldSet)
    (h : f.type = none ∨ f.name = none) :
    add_entity st now f = .error .constraintViolation := by
  unfold add_entity
  rcases h with h | h
  · rw [h]
  · rcases ht : f.type with _ | t
    · rfl
    · rw [h]

/-- Witness for the C2 amended theorem at a concrete field set. -/
theorem create_missing_required_aborts_w :
    add_entity ⟨[], 0⟩ "t0" ⟨none, some "x", none, none, none, none⟩ =
      .error .constraintViolation :=
  create_missing_required_aborts ⟨[], 0⟩ "t0" ⟨none, some "x", none, none, none, none⟩
    (Or.inl rfl)

/-- C3, counterexample: an engine whose compile options declare
`ENABLE_FTS5` but where creating an FTS5 table would fail.  The detector
returns `true` purely on the declared flag, contradicting the claim that it
never reports availability on the basis of a compile-time flag when index
creation would fail. -/
theorem fts_detector_flag_only_cex :
    db_supports_fts ⟨["ENABLE_FTS5"], false⟩ = true ∧
      SqliteEnv.ftsCreateWorks ⟨["ENABLE_FTS5"], false⟩ = false := by
  decide

/-- C3, amended: `db_supports_fts` consults the compile-option flag FIRST
and reports `true` on sight without any verification; the throwaway-index
probe runs only when no flag is declared.  So the detector's verdict is
`flag-declared OR creation-works`.  (`init_db` separately attempts to create
the real index and downgrades the feature to unavailable on failure, so the
process-level `fts` feature does end up equal to actual availability.) -/
theorem fts_detector_flag_or_probe (env : SqliteEnv) :
    db_supports_fts env = (env.compileOptions.any optMentionsFts || env.ftsCreateWorks) ∧
      init_db_fts env = env.ftsCreateWorks := by
  cases hw : env.ftsCreateWorks <;>
    by_cases hf : env.compileOptions.any optMentionsFts <;>
      simp [db_supports_fts, init_db_fts, hf, hw]

/-- C5, counterexample: the string `notjson` fails to parse, and the
`prompt_fields` prefill path silently replaces it with the empty mapping —
no error is surfaced on this read path, contradicting the claim that every
read path reports the corruption and never coerces to empty. -/
theorem prompt_meta_silent_coerce_cex :
    metaParse (metaRawOr "notjson") = none ∧
      prompt_fields_existing_meta "notjson" = ([] : MetaMap) := by
  decide

/-- C5, amended: for a stored metadata value that fails to parse, the
`view_entity` read path DOES report the corruption (an explicit
invalid-JSON notice carrying the raw text) while displaying every other
column of the row unchanged; but the `prompt_fields` edit-prefill read path
silently coerces the metadata to the empty mapping. -/
theorem corrupt_metadata_view_reports_prompt_coerces (raw : String)
    (h : metaParse (metaRawOr raw) = none) :
    view_meta raw = .invalidReported raw ∧
      (∀ r : Entity, r.metadata = raw →
        viewRow r = ⟨r.id, r.type, r.name, r.slug, (r.description.getD "").trim, r.tags,
          .invalidReported raw, r.created_at, r.updated_at⟩) ∧
      prompt_fields_existing_meta raw = [] := by
  refine ⟨?_, ?_, ?_⟩
  · unfold view_meta
    rw [h]
  · intro r hr
    unfold viewRow view_meta
    rw [hr, h]
  · unfold prompt_fields_existing_meta
    rw [h]
    rfl

/-- Witness for the C5 amended theorem at the concrete corrupt value. -/
theorem corrupt_metadata_view_reports_prompt_coerces_w :
    view_meta "notjson" = .invalidReported "notjson" ∧
      (∀ r : Entity, r.metadata = "notjson" →
        viewRow r = ⟨r.id, r.type, r.name, r.slug, (r.description.getD "").trim, r.tags,
          .invalidReported "notjson", r.created_at, r.updated_at⟩) ∧
      prompt_fields_existing_meta "notjson" = [] :=
  corrupt_metadata_view_reports_prompt_coerces "notjson" (by decide)

/-- C9: once a create has persisted a row with slug `slugify n1`, a second
create whose name slugifies to the same string (and with no explicit slug
override) fails with `ConstraintViolation` — the `UNIQUE(slug)` constraint
rejects the insert, and the failed call returns no modified store. -/
theorem dup_slug_second_create_fails (st : Store) (f1 f2 : FieldSet) (t1 t2 : String)
    (n1 n2 : String) (st' : Store) (id1 : Nat)
    (hs1 : f1.slug = none) (hs2 : f2.slug = none)
    (hn1 : f1.name = some n1) (hn2 : f2.name = some n2)
    (hss : slugify n1 = slugify n2)
    (h1 : add_entity st t1 f1 = .ok (st', id1)) :
    add_entity st' t2 f2 = .error .constraintViolation := by
  obtain ⟨ft1, fn1, fs1, fd1, fg1, fm1⟩ := f1
  obtain ⟨ft2, fn2, fs2, fd2, fg2, fm2⟩ := f2
  simp only at hs1 hs2 hn1 hn2
  subst hs1; subst hs2; subst hn1; subst hn2
  rcases ft1 with _ | ty1
  · simp only [add_entity] at h1
    exact Except.noConfusion h1
  · simp only [add_entity] at h1
    split at h1
    · simp at h1
    · rw [Except.ok.injEq, Prod.mk.injEq] at h1
      obtain ⟨hst, hid⟩ := h1
      subst hst
      rcases ft2 with _ | ty2
      · simp only [add_entity]
      · simp only [add_entity, addSlug, Option.getD_some]
        have hany : ((st.rows ++ [(⟨st.nextId, ty1, n1, slugify n1, fd1, fg1,
            metaDumps (fm1.getD []), t1, t1⟩ : Entity)]).any
              fun r => decide (r.slug = slugify n2)) = true := by
          rw [List.any_append]
          have h2 : (([⟨st.nextId, ty1, n1, slugify n1, fd1, fg1,
              metaDumps (fm1.getD []), t1, t1⟩] : List Entity).any
                fun r => decide (r.slug = slugify n2)) = true := by
            simp [hss]
          rw [h2, Bool.or_true]
        rw [if_pos hany]

/-- Witness for C9: creating `Ada Lovelace` and then `Ada  Lovelace` — both
slugify to `ada-lovelace` — makes the second create fail. -/
theorem dup_slug_second_create_fails_w :
    add_entity ⟨[⟨0, "person", "Ada Lovelace", "ada-lovelace", none, none,
        "\x7b\x7d", "t1", "t1"⟩], 1⟩ "t2"
      ⟨some "person", some "Ada  Lovelace", none, none, none, none⟩ =
      .error .constraintViolation :=
  dup_slug_second_create_fails ⟨[], 0⟩
    ⟨some "person", some "Ada Lovelace", none, none, none, none⟩
    ⟨some "person", some "Ada  Lovelace", none, none, none, none⟩ "t1" "t2"
    "Ada Lovelace" "Ada  Lovelace"
    ⟨[⟨0, "person", "Ada Lovelace", "ada-lovelace", none, none, "\x7b\x7d", "t1", "t1"⟩], 1⟩
    0 rfl rfl rfl rfl (by decide) rfl

/-- When a list has a hit for the id predicate, mapping the update over it
and searching again finds the updated row. -/
theorem find?_map_ite (eid : Nat) (r' : Entity) (hid : r'.id = eid) :
    ∀ (l : List Entity) (r0 : Entity),
      l.find? (fun x => decide (x.id = eid)) = some r0 →
      (l.map fun o => if o.id = eid then r' else o).find?
        (fun x => decide (x.id = eid)) = some r' := by
  intro l
  induction l with
  | nil => intro r0 h; simp at h
  | cons x l ih =>
    intro r0 h
    rw [List.map_cons]
    by_cases hx : x.id = eid
    · rw [if_pos hx, List.find?_cons_of_pos _ (by simp [hid])]
    · rw [if_neg hx, List.find?_cons_of_neg _ (by simp [hx])]
      rw [List.find?_cons_of_neg _ (by simp [hx])] at h
      exact ih r0 h

/-- C10: for an existing id, `update` treats every `None`-valued field as
not supplied — the stored column keeps its prior value, so a caller cannot
clear a field to `NULL` — while `updated_at` is refreshed unconditionally,
even when every supplied value is `None`. -/
theorem update_none_fields_keep_prior (st : Store) (eid : Nat) (f : FieldSet)
    (now : String) (r : Entity) (st' : Store)
    (hr : fetch_entity st eid = some r)
    (hu : update_entity st eid f now = .ok st') :
    ∃ r', fetch_entity st' eid = some r' ∧
      r'.updated_at = now ∧
      (f.type = none → r'.type = r.type) ∧
      (f.name = none → r'.name = r.name) ∧
      (f.slug = none → r'.slug = r.slug) ∧
      (f.description = none → r'.description = r.description) ∧
      (f.tags = none → r'.tags = r.tags) ∧
      (f.metadata = none → r'.metadata = r.metadata) ∧
      r'.created_at = r.created_at ∧ r'.id = r.id := by
  unfold fetch_entity at hr
  simp only [update_entity, hr] at hu
  split at hu
  · simp at hu
  · rw [Except.ok.injEq] at hu
    subst hu
    have hrid : r.id = eid := by
      have h := List.find?_some hr
      simpa using h
    have hid : (applyUpdate r f now).id = eid := by
      simp [applyUpdate, hrid]
    refine ⟨applyUpdate r f now, ?_, ?_, ?_, ?_, ?_, ?_, ?_, ?_, ?_, ?_⟩
    · unfold fetch_entity
      exact find?_map_ite eid _ hid st.rows r hr
    · simp [applyUpdate]
    · intro h; simp [applyUpdate, h]
    · intro h; simp [applyUpdate, h]
    · intro h; simp [applyUpdate, h]
    · intro h; simp [applyUpdate, h]
    · intro h; simp [applyUpdate, h]
    · intro h; simp [applyUpdate, h]
    · simp [applyUpdate]
    · simp [applyUpdate, hrid]

/-- Witness for C10: updating the only row with an all-`None` field set
keeps every column and refreshes `updated_at`. -/
theorem update_none_fields_keep_prior_w :
    ∃ r', fetch_entity ⟨[⟨0, "p", "A", "a", some "d", none, "\x7b\x7d", "t1", "t2"⟩], 1⟩ 0 =
        some r' ∧
      r'.updated_at = "t2" ∧
      (FieldSet.type ⟨none, none, none, none, none, none⟩ = none → r'.type = "p") ∧
      (FieldSet.name ⟨none, none, none, none, none, none⟩ = none → r'.name = "A") ∧
      (FieldSet.slug ⟨none, none, none, none, none, none⟩ = none → r'.slug = "a") ∧
      (FieldSet.description ⟨none, none, none, none, none, none⟩ = none →
        r'.description = some "d") ∧
      (FieldSet.tags ⟨none, none, none, none, none, none⟩ = none → r'.tags = none) ∧
      (FieldSet.metadata ⟨none, none, none, none, none, none⟩ = none →
        r'.metadata = "\x7b\x7d") ∧
      r'.created_at = "t1" ∧ r'.id = 0 :=
  update_none_fields_keep_prior
    ⟨[⟨0, "p", "A", "a", some "d", none, "\x7b\x7d", "t1", "t1"⟩], 1⟩
    0 ⟨none, none, none, none, none, none⟩ "t2"
    ⟨0, "p", "A", "a", some "d", none, "\x7b\x7d", "t1", "t1"⟩
    ⟨[⟨0, "p", "A", "a", some "d", none, "\x7b\x7d", "t1", "t2"⟩], 1⟩ rfl rfl

/-- C8: a successful create followed by a fetch of the returned id yields a
row whose `type`, `name`, `description` and `tags` equal the input, whose
`metadata` column is the serialized input document (and parses back to it),
and whose `created_at` equals `updated_at` (both the insertion time).
`st.WF` is the store invariant that every existing rowid is below the
`AUTOINCREMENT` counter, which every reachable store satisfies. -/
theorem create_get_roundtrip (st : Store) (now : String) (f : FieldSet)
    (st' : Store) (nid : Nat) (hwf : st.WF)
    (h : add_entity st now f = .ok (st', nid)) :
    ∃ e : Entity, fetch_entity st' nid = some e ∧
      f.type = some e.type ∧ f.name = some e.name ∧
      e.description = f.description ∧ e.tags = f.tags ∧
      e.metadata = metaDumps (f.metadata.getD []) ∧
      metaParse e.metadata = some (f.metadata.getD []) ∧
      e.created_at = now ∧ e.updated_at = now ∧ e.created_at = e.updated_at := by
  obtain ⟨ft, fn, fs, fd, fg, fm⟩ := f
  rcases ft with _ | ty
  · simp only [add_entity] at h
    exact Except.noConfusion h
  · rcases fn with _ | nm
    · simp only [add_entity] at h
      exact Except.noConfusion h
    · simp only [add_entity] at h
      split at h
      · simp at h
      · rw [Except.ok.injEq, Prod.mk.injEq] at h
        obtain ⟨hst, hid⟩ := h
        subst hst
        subst hid
        refine ⟨⟨st.nextId, ty, nm, addSlug ⟨some ty, some nm, fs, fd, fg, fm⟩,
          fd, fg, metaDumps (fm.getD []), now, now⟩, ?_, rfl, rfl, rfl, rfl, rfl,
          metaParse_metaDumps _, rfl, rfl, rfl⟩
        unfold fetch_entity
        rw [show (⟨st.rows ++ [(⟨st.nextId, ty, nm,
            addSlug ⟨some ty, some nm, fs, fd, fg, fm⟩, fd, fg,
            metaDumps (fm.getD []), now, now⟩ : Entity)], st.nextId + 1⟩ : Store).rows =
          st.rows ++ [(⟨st.nextId, ty, nm, addSlug ⟨some ty, some nm, fs, fd, fg, fm⟩,
            fd, fg, metaDumps (fm.getD []), now, now⟩ : Entity)] from rfl]
        rw [find?_append_left_none]
        · rw [List.find?_cons_of_pos _ (by simp)]
        · apply List.find?_eq_none.mpr
          intro x hx
          have hlt := hwf x hx
          simp only [decide_eq_true_eq]
          omega

/-- Witness for C8 at a concrete create. -/
theorem create_get_roundtrip_w :
    ∃ e : Entity, fetch_entity ⟨[⟨0, "person", "Ada", "ada", some "d", none,
        "\x7b\"k\": \"v\"\x7d", "n0", "n0"⟩], 1⟩ 0 = some e ∧
      FieldSet.type ⟨some "person", some "Ada", none, some "d", none, some [("k", "v")]⟩ =
        some e.type ∧
      FieldSet.name ⟨some "person", some "Ada", none, some "d", none, some [("k", "v")]⟩ =
        some e.name ∧
      e.description =
        FieldSet.description ⟨some "person", some "Ada", none, some "d", none,
          some [("k", "v")]⟩ ∧
      e.tags = FieldSet.tags ⟨some "person", some "Ada", none, some "d", none,
        some [("k", "v")]⟩ ∧
      e.metadata = metaDumps ((FieldSet.metadata ⟨some "person", some "Ada", none, some "d",
        none, some [("k", "v")]⟩).getD []) ∧
      metaParse e.metadata = some ((FieldSet.metadata ⟨some "person", some "Ada", none,
        some "d", none, some [("k", "v")]⟩).getD []) ∧
      e.created_at = "n0" ∧ e.updated_at = "n0" ∧ e.created_at = e.updated_at :=
  create_get_roundtrip ⟨[], 0⟩ "n0"
    ⟨some "person", some "Ada", none, some "d", none, some [("k", "v")]⟩
    ⟨[⟨0, "person", "Ada", "ada", some "d", none, "\x7b\"k\": \"v\"\x7d", "n0", "n0"⟩], 1⟩
    0 (fun r hr => absurd hr (List.not_mem_nil r)) rfl

/-- C4, amended: with FTS enabled, a non-empty stripped query, the MATCH
attempt raising no error and returning at least one row, `search` returns
exactly those rows: at most `limit` of them, every one matching the engine's
match predicate, in ascending rowid order — the SQL carries no `ORDER BY`,
so the engine's default rowid order is returned, not its relevance
order. -/
theorem search_fts_rows_limit_id_order (st : Store) (e : FtsEngine) (q : String)
    (lim : Nat) (h1 : ¬ pyStrip q = "") (h2 : e.matchOk (pyStrip q) = true)
    (h3 : ¬ (ftsQuery e st (pyStrip q) lim).isEmpty = true) :
    search_entities st e q true lim = ftsQuery e st (pyStrip q) lim ∧
      (search_entities st e q true lim).length ≤ lim ∧
      List.Sorted idLe (search_entities st e q true lim) ∧
      ∀ r ∈ search_entities st e q true lim, e.matchesQuery (pyStrip q) r = true := by
  have heq : search_entities st e q true lim = ftsQuery e st (pyStrip q) lim := by
    simp only [search_entities]
    rw [if_neg h1, if_pos (by simp [h2]), if_neg h3]
  refine ⟨heq, ?_, ?_, ?_⟩
  · rw [heq]
    unfold ftsQuery
    rw [List.length_take]
    exact min_le_left _ _
  · rw [heq]
    unfold ftsQuery
    exact List.Pairwise.sublist (List.take_sublist _ _)
      (List.sorted_insertionSort idLe _)
  · intro r hr
    rw [heq] at hr
    unfold ftsQuery at hr
    have hr3 : r ∈ List.insertionSort idLe
        (st.rows.filter (e.matchesQuery (pyStrip q))) :=
      (List.take_sublist _ _).subset hr
    have hr4 : r ∈ st.rows.filter (e.matchesQuery (pyStrip q)) :=
      (List.perm_insertionSort idLe _).mem_iff.mp hr3
    exact (List.mem_filter.mp hr4).2

/-- Witness for the C4 amended theorem on a concrete store and engine. -/
theorem search_fts_rows_limit_id_order_w :
    search_entities stAB idRelEngine "x" true 10 =
      ftsQuery idRelEngine stAB (pyStrip "x") 10 :=
  (search_fts_rows_limit_id_order stAB idRelEngine "x" 10
    (by decide) (by decide) (by decide)).1

/-- C4, counterexample: an engine whose relevance function ranks row 2 above
row 1.  The FTS attempt succeeds with both rows, and `search` returns them
in rowid order `[rowA, rowB]` — NOT most-relevant-first according to the
engine's relevance function, contradicting the claim's ordering
guarantee. -/
theorem search_fts_not_relevance_sorted_cex :
    search_entities stAB idRelEngine "x" true 10 = [rowA, rowB] ∧
      ¬ List.Sorted (fun a b : Entity =>
          idRelEngine.rel "x" b ≤ idRelEngine.rel "x" a)
        (search_entities stAB idRelEngine "x" true 10) := by
  have h1 : search_entities stAB idRelEngine "x" true 10 = [rowA, rowB] := by decide
  refine ⟨h1, ?_⟩
  intro hs
  rw [h1] at hs
  have h2 := List.rel_of_sorted_cons hs rowB (by simp)
  norm_num [idRelEngine, rowA, rowB] at h2

/-- C6, amended: with full-text unavailable and a query whose stripped form
is non-empty and free of the SQL `LIKE` wildcards `%` and `_`,
`search(query, limit)` returns exactly `scanTextMatch(strip(query), limit)`.
(The code matches the STRIPPED query, and `%`/`_` in a query act as `LIKE`
wildcards rather than literal substring characters — both deviations from
the claim as stated.) -/
theorem search_fallback_eq_scan (st : Store) (e : FtsEngine) (q : String) (lim : Nat)
    (h1 : ¬ pyStrip q = "") (h2 : ∀ c ∈ (pyStrip q).data, c ≠ '%' ∧ c ≠ '_') :
    search_entities st e q false lim = scanTextMatch st (pyStrip q) lim := by
  simp only [search_entities]
  rw [if_neg h1, if_neg (by simp)]
  exact likeScan_eq_scanTextMatch st (pyStrip q) lim h2

/-- Witness for the C6 amended theorem on a concrete store and query. -/
theorem search_fallback_eq_scan_w :
    search_entities stLike nullEngine "ab" false 25 =
      scanTextMatch stLike (pyStrip "ab") 25 :=
  search_fallback_eq_scan stLike nullEngine "ab" 25 (by decide) (by decide)

/-- C6, counterexample: the query `a%b` is non-empty and non-whitespace, yet
with full-text unavailable `search` returns the entity named `ab` (the `%`
acts as a LIKE wildcard), while `scanTextMatch("a%b")` — case-insensitive
substring containment — returns nothing.  The two differ, contradicting the
claimed equality for every non-empty query. -/
theorem search_fallback_wildcard_cex :
    search_entities stLike nullEngine "a%b" false 25 = [rowAB] ∧
      scanTextMatch stLike "a%b" 25 = [] := by
  constructor
  · decide
  · decide

/-- C7, amended: in the fallback configuration the ranking engine scores
each candidate as `max(nameRatio * 1.2, descRatio) * 100` with both ratios
in `[0, 1]`, stable-sorts by descending score (for every score value, the
candidates attaining it keep their original relative order) and truncates
to `topN`.  Candidates with no text content score 0 whenever the query is
non-empty; under an EMPTY query a no-text candidate scores 120, because the
similarity ratio of two empty strings is 1 — the unconditional
\"no text scores 0\" clause of the claim fails there. -/
theorem rank_fallback_formula_sort_truncate (q : String) (rows : List Entity) (n : Nat) :
    rank_candidates q rows n = (List.insertionSort scoreGe (scoredRows q rows)).take n ∧
      List.Sorted scoreGe (rank_candidates q rows n) ∧
      (rank_candidates q rows n).length = min n rows.length ∧
      (List.insertionSort scoreGe (scoredRows q rows)).Perm (scoredRows q rows) ∧
      (∀ c : ℚ, (List.insertionSort scoreGe (scoredRows q rows)).filter
          (fun y => decide (y.2 = c)) =
        (scoredRows q rows).filter fun y => decide (y.2 = c)) ∧
      (∀ r ∈ rows, 0 ≤ seqSim (strLower q) (strLower r.name) ∧
        seqSim (strLower q) (strLower r.name) ≤ 1 ∧
        0 ≤ seqSim (strLower q) (strLower (r.description.getD "")) ∧
        seqSim (strLower q) (strLower (r.description.getD "")) ≤ 1 ∧
        fallbackScore q r =
          max (seqSim (strLower q) (strLower r.name) * (6 / 5))
            (seqSim (strLower q) (strLower (r.description.getD ""))) * 100) ∧
      (¬ q = "" → ∀ r ∈ rows, r.name = "" → r.description.getD "" = "" →
        fallbackScore q r = 0) := by
  refine ⟨rfl, ?_, ?_, List.perm_insertionSort scoreGe _,
    fun c => insertionSort_filter_score c _, ?_, ?_⟩
  · exact List.Pairwise.sublist (List.take_sublist _ _)
      (List.sorted_insertionSort scoreGe _)
  · unfold rank_candidates
    rw [List.length_take, (List.perm_insertionSort scoreGe _).length_eq]
    unfold scoredRows
    rw [List.length_map]
  · intro r hr
    exact ⟨seqSim_nonneg _ _, seqSim_le_one _ _, seqSim_nonneg _ _,
      seqSim_le_one _ _, rfl⟩
  · intro hq r hr hn hd
    have hql : ¬ strLower q = "" := by
      intro hh
      apply hq
      have hdata : q.data.map lc = [] := congrArg String.data hh
      exact String.ext (List.map_eq_nil_iff.mp hdata)
    simp only [fallbackScore, hn, hd]
    rw [show strLower "" = "" from rfl, seqSim_empty_right _ hql]
    norm_num

/-- Witness for the C7 amended theorem on a concrete ranking call. -/
theorem rank_fallback_formula_sort_truncate_w :
    rank_candidates "ab" [rowA] 1 =
      (List.insertionSort scoreGe (scoredRows "ab" [rowA])).take 1 :=
  (rank_fallback_formula_sort_truncate "ab" [rowA] 1).1

/-- C7, counterexample: under the empty query, a candidate with no text
content scores `max(1 * 1.2, 1) * 100 = 120`, not 0 — `difflib`'s ratio of
two empty strings is 1 — contradicting the claim's unconditional
\"candidates with no text content score 0\". -/
theorem rank_empty_query_no_text_score_cex :
    rank_candidates "" [rowEmpty] 1 = [(rowEmpty, 120)] ∧ (120 : ℚ) ≠ 0 := by
  have hs : fallbackScore "" rowEmpty = 120 := by
    have h1 : strLower "" = "" := rfl
    have h2 : strLower rowEmpty.name = "" := rfl
    have h3 : strLower (rowEmpty.description.getD "") = "" := rfl
    simp only [fallbackScore, h1, h2, h3, seqSim_empty_empty]
    norm_num
  constructor
  · simp [rank_candidates, scoredRows, hs]
  · norm_num
